import Mathlib

/-!
Verification of the Quantitative Risk & Schedule Analysis Engine.

Shallow embedding of the two source files the claims point at:

* `src/forge-operator/scripts/operational_calculator.py`, method
  `calculate_critical_path` — embedded below as `calculate_critical_path`.
  The Python forward pass is a repeat-until-no-change relaxation loop with
  no termination guarantee, so the outer loop is modelled with explicit
  fuel: a `none` result means the loop has not reached a fixed point within
  `fuel` iterations (for inputs on which we prove `none` for *every* fuel,
  the Python loop runs forever).  Python exceptions (`ValueError` from
  `max()` over an empty sequence) are modelled by `Except`.

* `src/veto-skeptic/scripts/risk_analyzer.py`, methods
  `monte_carlo_simulation`, `bayesian_update`, `adjust_for_base_rate`.
  Floating point arithmetic is embedded as exact rational arithmetic.
  The module-global `np.random` generator is modelled as oracle streams of
  standard-normal and uniform variates together with a position counter
  that every draw advances: `np.random.normal(mu, sigma, n)` consumes `n`
  standard-normal variates `z` and yields `mu + sigma * z`, and
  `np.random.random(n)` consumes `n` uniform variates.
-/

/-- Python runtime errors reachable in the embedded code.  `valueError`
models the `ValueError` that `max()` raises on an empty sequence. -/
inductive PyErr where
  | valueError
deriving DecidableEq, Repr

/-- Python `max` over a list (raises, i.e. `none`, on the empty list). -/
def pyMax {α : Type} [LinearOrder α] : List α → Option α
  | [] => none
  | x :: xs =>
    some (match pyMax xs with
          | none => x
          | some m => max x m)

/-- Python `min` over a list (`np.min` on a non-empty array agrees). -/
def pyMin {α : Type} [LinearOrder α] : List α → Option α
  | [] => none
  | x :: xs =>
    some (match pyMin xs with
          | none => x
          | some m => min x m)

/-- An input task dict with keys name (str), duration (int) and
dependencies (list of str).  Durations are embedded as integers, exactly
as the docstring of `calculate_critical_path` declares them. -/
structure TaskIn where
  name : String
  duration : ℤ
  dependencies : List String
deriving DecidableEq, Repr

/-- A task during the forward pass: the Python dict after the keys
`early_start` / `early_finish` have been added. -/
structure CPTask where
  name : String
  duration : ℤ
  dependencies : List String
  es : ℤ
  ef : ℤ
deriving DecidableEq, Repr

/-- A task after the scheduling call: the Python dict once
`late_finish`, `late_start` and `slack` have also been assigned
(the source mutates the caller dicts in place; we return the final
records alongside the result dict). -/
structure CPFinal where
  name : String
  duration : ℤ
  dependencies : List String
  es : ℤ
  ef : ℤ
  lf : ℤ
  ls : ℤ
  slack : ℤ
deriving DecidableEq, Repr

/-- The dict returned by `calculate_critical_path`.  The field
`average_slack` is a Python true division, hence a rational. -/
structure CPResult where
  project_duration : ℤ
  critical_path : List String
  critical_path_length : ℕ
  tasks_with_slack : List String
  average_slack : ℚ
deriving DecidableEq, Repr

/-- Lookup of a dependency name in the dict comprehension the source
calls task_map: a Python dict comprehension keeps the last task with a
given name, and the dict aliases the mutable task objects, so lookups
read the current state. -/
def lookupTask (s : List CPTask) (d : String) : Option CPTask :=
  s.reverse.find? (fun t => t.name == d)

/-- The body of one sweep of the forward pass: iterate over the task list
(indices `idxs`, initially `0,...,n-1`), and for each task with a non-empty
dependency list take the max `early_finish` over the dependencies that
resolve (`if dep in task_map` silently skips dangling names); `max()` over
an empty sequence raises `ValueError`.  If the max exceeds the current
`early_start` of the task, update `early_start` / `early_finish` in place
and set the `changed` flag. -/
def passGo : List CPTask → Bool → List ℕ → Except PyErr (List CPTask × Bool)
  | s, ch, [] => .ok (s, ch)
  | s, ch, i :: rest =>
    match s.get? i with
    | none => passGo s ch rest
    | some t =>
      if t.dependencies.isEmpty then passGo s ch rest
      else
        match pyMax (t.dependencies.filterMap (fun d => (lookupTask s d).map (·.ef))) with
        | none => .error .valueError
        | some m =>
          if t.es < m then
            passGo (s.set i { t with es := m, ef := m + t.duration }) true rest
          else passGo s ch rest

/-- One sweep of the `while changed` relaxation loop. -/
def onePass (s : List CPTask) : Except PyErr (List CPTask × Bool) :=
  passGo s false (List.range s.length)

/-- The `while changed` loop, with fuel: `none` means no fixed point was
reached within `fuel` sweeps. -/
def forwardLoop : ℕ → List CPTask → Option (Except PyErr (List CPTask))
  | 0, _ => none
  | fuel + 1, s =>
    match onePass s with
    | .error e => some (.error e)
    | .ok (s', true) => forwardLoop fuel s'
    | .ok (s', false) => some (.ok s')

/-- The two in-place backward-pass loops of the source, as one map over
the final forward-pass state: `late_finish = project_duration`,
`late_start = project_duration - duration`,
`slack = late_start - early_start`. -/
def finalize (pd : ℤ) (t : CPTask) : CPFinal :=
  { name := t.name, duration := t.duration, dependencies := t.dependencies,
    es := t.es, ef := t.ef, lf := pd, ls := pd - t.duration,
    slack := (pd - t.duration) - t.es }

/-- Method `OperationalCalculator.calculate_critical_path`, embedded from
`src/forge-operator/scripts/operational_calculator.py` lines 259–315:
initialise `early_start = 0`, `early_finish = duration`; run the
relaxation loop; `project_duration = max(early_finish)` (a `ValueError`
on an empty task list); set `late_finish = project_duration` and
`late_start = project_duration - duration` for every task; compute
`slack = late_start - early_start` and collect the zero-slack task names
in list order.  Returns the result dict together with the final state of
the (mutated-in-place) task records. -/
def calculate_critical_path (fuel : ℕ) (tasks : List TaskIn) :
    Option (Except PyErr (CPResult × List CPFinal)) :=
  let s0 := tasks.map fun t =>
    { name := t.name, duration := t.duration, dependencies := t.dependencies,
      es := 0, ef := t.duration : CPTask }
  match forwardLoop fuel s0 with
  | none => none
  | some (.error e) => some (.error e)
  | some (.ok s) =>
    match pyMax (s.map (·.ef)) with
    | none => some (.error .valueError)
    | some pd =>
      let finals : List CPFinal := s.map (finalize pd)
      let critical := (finals.filter (fun t => t.slack == 0)).map (·.name)
      some (.ok
        ({ project_duration := pd,
           critical_path := critical,
           critical_path_length := critical.length,
           tasks_with_slack := (finals.filter (fun t => decide (0 < t.slack))).map (·.name),
           average_slack :=
             if tasks.isEmpty then 0
             else (((finals.map (·.slack)).sum : ℤ) : ℚ) / (tasks.length : ℚ) },
         finals))

/-- The four-task scenario of the spec: A (3, no deps), B (2, [A]),
C (4, [A]), D (1, [B, C]). -/
def exampleTasks : List TaskIn :=
  [⟨"A", 3, []⟩, ⟨"B", 2, ["A"]⟩, ⟨"C", 4, ["A"]⟩, ⟨"D", 1, ["B", "C"]⟩]

/-- A two-task dependency cycle: A depends on B, B depends on A. -/
def cyclicTasks : List TaskIn :=
  [⟨"A", 1, ["B"]⟩, ⟨"B", 1, ["A"]⟩]

/-- A collection with a dangling dependency: B depends on A and on the
non-existent task Z. -/
def danglingTasks : List TaskIn :=
  [⟨"A", 3, []⟩, ⟨"B", 2, ["A", "Z"]⟩]

/-- Table `RiskAnalyzer.base_rates` from
`src/veto-skeptic/scripts/risk_analyzer.py` lines 16–25, as an
association list (decimal literals are exact rationals here). -/
def base_rates : List (String × ℚ) :=
  [("startup_unicorn", 6 / 100000),
   ("new_product_success", 5 / 100),
   ("it_project_on_time", 16 / 100),
   ("ma_value_creation", 30 / 100),
   ("platform_network_effects", 1 / 100),
   ("behavior_change_scale", 8 / 100),
   ("regulatory_approval_new", 22 / 100),
   ("disruption_incumbent", 3 / 100)]

/-- Method `RiskAnalyzer.adjust_for_base_rate` (lines 174–195): blend with the
base rate of the table when the scenario type is known (weights 0.7 and
0.3, written as exact fractions), else divide by 3. -/
def adjust_for_base_rate (optimistic_projection : ℚ) (scenario_type : String) : ℚ :=
  match base_rates.lookup scenario_type with
  | some base_rate => base_rate * (7 / 10) + optimistic_projection * (3 / 10)
  | none => optimistic_projection / 3

/-- Method `RiskAnalyzer.bayesian_update` (lines 127–149). -/
def bayesian_update (prior likelihood_given_true likelihood_given_false : ℚ) : ℚ :=
  let evidence := likelihood_given_true * prior + likelihood_given_false * (1 - prior)
  if evidence = 0 then prior
  else likelihood_given_true * prior / evidence

/-- The module-global `np.random` generator, modelled as oracle streams:
`norm k` is the `k`-th standard-normal variate the process will draw and
`unif k` the `k`-th uniform variate; `pos` is the number of variates drawn
so far.  Every draw advances `pos`, so a second call to the simulator sees
different variates than the first — exactly the global-state behaviour of
`np.random` in the source. -/
structure RNG where
  norm : ℕ → ℚ
  unif : ℕ → ℚ
  pos : ℕ

/-- Draw `np.random.normal(mu, sigma, n)`: consume `n` standard-normal
variates `z` and return `mu + sigma * z` for each. -/
def normalDraws (r : RNG) (mu sigma : ℚ) (n : ℕ) : List ℚ × RNG :=
  ((List.range n).map (fun i => mu + sigma * r.norm (r.pos + i)),
   { r with pos := r.pos + n })

/-- Draw `np.random.random(n)`: consume `n` uniform variates. -/
def uniformDraws (r : RNG) (n : ℕ) : List ℚ × RNG :=
  ((List.range n).map (fun i => r.unif (r.pos + i)), { r with pos := r.pos + n })

/-- Sorting as NumPy does before taking percentiles. -/
def pySort (l : List ℚ) : List ℚ :=
  l.insertionSort (· ≤ ·)

/-- Linear interpolation into a (sorted) sample list at fractional
position `pos`: the NumPy default percentile interpolation
`lo + frac * (hi - lo)` with `lo = s[floor(pos)]`, `hi = s[floor(pos)+1]`. -/
def interp (s : List ℚ) (pos : ℚ) : ℚ :=
  let i := (⌊pos⌋).toNat
  let lo := s.getD i 0
  let hi := s.getD (i + 1) lo
  lo + (pos - (⌊pos⌋ : ℚ)) * (hi - lo)

/-- Percentile `np.percentile(samples, q)` with the default linear
interpolation: sort, then interpolate at position `q/100 * (n-1)`.  (Total
function; the simulator guards the empty case, where NumPy raises, before
using it.  `np.median` equals this at `q = 50`.) -/
def percentileD (samples : List ℚ) (q : ℚ) : ℚ :=
  interp (pySort samples) (q * ((samples.length : ℚ) - 1) / 100)

/-- Mean `np.mean`: sum over length. -/
def listMean (l : List ℚ) : ℚ :=
  l.sum / (l.length : ℚ)

/-- The dict returned by `monte_carlo_simulation`.  The field `std_sq`
carries the *square* of `np.std(simulations)` (the population variance):
the standard deviation itself is an irrational square root, and no claim
concerns it, so we keep its exact square in ℚ. -/
structure SimResult where
  mean : ℚ
  median : ℚ
  std_sq : ℚ
  p5 : ℚ
  p10 : ℚ
  p25 : ℚ
  p50 : ℚ
  p75 : ℚ
  p90 : ℚ
  p95 : ℚ
  worst_case : ℚ
  best_case : ℚ
  probability_loss : ℚ
  value_at_risk_95 : ℚ
  conditional_var_95 : ℚ
deriving DecidableEq, Repr

/-- The sampling phase of `monte_carlo_simulation` (lines 63–69): draw the
normal samples, then, if black-swan injection is on, draw a uniform mask
and overwrite masked samples (`np.random.random(n) < 0.01`) with
`base_case * 0.1` (the decimals written as exact fractions). -/
def mcSamples (r : RNG) (base_case volatility : ℚ) (n : ℕ)
    (include_black_swan : Bool) : List ℚ × RNG :=
  let (sims, r1) := normalDraws r base_case (base_case * volatility) n
  if include_black_swan then
    let (us, r2) := uniformDraws r1 n
    (List.zipWith (fun x u => if u < 1 / 100 then base_case * (1 / 10) else x) sims us, r2)
  else (sims, r1)

/-- The statistics phase of `monte_carlo_simulation` (lines 71–90). -/
def mcStats (sims : List ℚ) (n : ℕ) : SimResult :=
  { mean := listMean sims,
    median := percentileD sims 50,
    std_sq := listMean (sims.map (fun x => (x - listMean sims) ^ 2)),
    p5 := percentileD sims 5,
    p10 := percentileD sims 10,
    p25 := percentileD sims 25,
    p50 := percentileD sims 50,
    p75 := percentileD sims 75,
    p90 := percentileD sims 90,
    p95 := percentileD sims 95,
    worst_case := (pyMin sims).getD 0,
    best_case := (pyMax sims).getD 0,
    probability_loss := ((sims.filter (fun x => decide (x < 0))).length : ℚ) / (n : ℚ),
    value_at_risk_95 := percentileD sims 5,
    conditional_var_95 := listMean (sims.filter (fun x => x ≤ percentileD sims 5)) }

/-- Method `RiskAnalyzer.monte_carlo_simulation` (lines 46–90).  There is
no seed parameter in the source; the global generator state is threaded in
and out.  `np.random.normal` raises `ValueError` on a negative scale
(`base_case * volatility < 0`), and `np.percentile` raises on an empty
sample array (`n = 0`); both are modelled as `none`. -/
def monte_carlo_simulation (r : RNG) (base_case volatility : ℚ) (n : ℕ)
    (include_black_swan : Bool) : Option SimResult × RNG :=
  if base_case * volatility < 0 then (none, r)
  else
    let p := mcSamples r base_case volatility n include_black_swan
    if n = 0 then (none, p.2)
    else (some (mcStats p.1 n), p.2)

/-- A concrete global generator: standard-normal stream 0, 1, 2, …,
uniform stream constantly ½, nothing drawn yet. -/
def rngW : RNG :=
  { norm := fun k => (k : ℚ), unif := fun _ => 1 / 2, pos := 0 }

/-- A single-task collection used to instantiate the general invariants. -/
def soloTasks : List TaskIn :=
  [⟨"A", 1, []⟩]

/-- The state of task A of `cyclicTasks` during the relaxation loop:
early_start `a`, early_finish `a + 1`. -/
def cycA (a : ℤ) : CPTask :=
  ⟨"A", 1, ["B"], a, a + 1⟩

/-- The state of task B of `cyclicTasks` during the relaxation loop. -/
def cycB (b : ℤ) : CPTask :=
  ⟨"B", 1, ["A"], b, b + 1⟩

/-- Clamped indexing into a sample list (last element beyond the end),
used to reason about the NumPy percentile interpolation. -/
def cIdx (s : List ℚ) (i : ℕ) : ℚ :=
  s.getD (min i (s.length - 1)) 0

/-- The sample list of a concrete one-sample simulator call. -/
def c8sims : List ℚ :=
  (mcSamples rngW 5 0 1 false).1

/-- The statistics of that concrete simulator call. -/
def c8res : SimResult :=
  mcStats c8sims 1

/-- The result of scheduling the single-task collection, extracted from
the call so that concrete instantiations stay definitional. -/
def c9pair : CPResult × List CPFinal :=
  match calculate_critical_path 2 soloTasks with
  | some (.ok p) => p
  | _ => (⟨0, [], 0, [], 0⟩, [])

/-- C1: the claim says the backward pass sets
late_finish(t) = min over the dependents of t of late_start, and that on
the four-task example the result is critical_path = [A, C, D] with
slack(B) = 2.  The code instead sets late_finish = project_duration for
every task, so on the example it returns project_duration 8 (as claimed)
but critical_path = [D] only, slack(B) = 3, and late_finish 8 even for
tasks that have dependents (A should get 3).  This theorem evaluates the
embedded code on the example and exhibits that behaviour. -/
theorem c1_backward_pass_code_result :
    (calculate_critical_path 3 exampleTasks).map (fun e => e.map (fun p =>
      (p.1.project_duration, p.1.critical_path,
       p.2.map (fun t => (t.name, t.lf, t.slack)))))
    = some (.ok (8, ["D"],
        [("A", 8, 5), ("B", 8, 3), ("C", 8, 1), ("D", 8, 0)])) := by
  rfl

/-- C3: the claim says a dangling dependency identifier makes the call
fail with a DanglingDependency error naming the identifier.  The code
silently skips dependencies that are not in the task map and returns a
normal result: on tasks A (3, no deps) and B (2, deps [A, Z]) with Z
undefined it succeeds with project_duration 5 and critical_path [B]. -/
theorem c3_dangling_dependency_ignored :
    (calculate_critical_path 3 danglingTasks).map (fun e => e.map (fun p =>
      (p.1.project_duration, p.1.critical_path)))
    = some (.ok (5, ["B"])) := by
  rfl

/-- C4: the claim says the empty task collection yields project_duration 0
and an empty critical path with no error.  The code computes
project_duration as a Python max over the empty early_finish sequence,
which raises ValueError. -/
theorem c4_empty_tasks_value_error :
    calculate_critical_path 1 [] = some (.error .valueError) := by
  rfl

/-- C5: the claim requires that, given an explicit seed in the
configuration, two invocations with identical configuration be
bit-identical.  The source has no seed parameter at all and draws from the
module-global generator, whose state advances between calls: with the
global standard-normal stream 0, 1, 2, … two consecutive calls with the
identical arguments (base_case 100, volatility 3/10, one sample, no black
swan) return mean 100 and mean 130 — different results. -/
theorem c5_no_seed_not_reproducible :
    ((monte_carlo_simulation rngW 100 (3/10) 1 false).1).map (·.mean) = some 100 ∧
    ((monte_carlo_simulation (monte_carlo_simulation rngW 100 (3/10) 1 false).2
        100 (3/10) 1 false).1).map (·.mean) = some 130 ∧
    (monte_carlo_simulation rngW 100 (3/10) 1 false).1 ≠
      (monte_carlo_simulation (monte_carlo_simulation rngW 100 (3/10) 1 false).2
        100 (3/10) 1 false).1 := by
  have hr : List.range 1 = [0] := rfl
  have h1 : ((monte_carlo_simulation rngW 100 (3/10) 1 false).1).map (·.mean)
      = some 100 := by
    norm_num [monte_carlo_simulation, mcSamples, mcStats, normalDraws, listMean, rngW, hr]
  have h2 : ((monte_carlo_simulation (monte_carlo_simulation rngW 100 (3/10) 1 false).2
      100 (3/10) 1 false).1).map (·.mean) = some 130 := by
    norm_num [monte_carlo_simulation, mcSamples, mcStats, normalDraws, listMean, rngW, hr]
  refine ⟨h1, h2, fun h => ?_⟩
  rw [h] at h1
  rw [h2] at h1
  simp only [Option.some.injEq] at h1
  norm_num at h1

/-- C6: adjust_for_base_rate returns base_rate·0.7 + projection·0.3 for a
known scenario category, projection/3 for an unknown one, and in
particular maps 10 000 000 under new_product_success (base rate 0.05) to
3 000 000.035. -/
theorem c6_adjust_for_base_rate_spec :
    (∀ (proj : ℚ) (cat : String) (r : ℚ), base_rates.lookup cat = some r →
       adjust_for_base_rate proj cat = r * 0.7 + proj * 0.3) ∧
    (∀ (proj : ℚ) (cat : String), base_rates.lookup cat = none →
       adjust_for_base_rate proj cat = proj / 3) ∧
    adjust_for_base_rate 10000000 "new_product_success" = 3000000.035 := by
  refine ⟨?_, ?_, ?_⟩
  · intro proj cat r h
    simp only [adjust_for_base_rate, h]
    norm_num
  · intro proj cat h
    simp [adjust_for_base_rate, h]
  · have h : base_rates.lookup "new_product_success" = some (5 / 100) := rfl
    simp only [adjust_for_base_rate, h]
    norm_num

/-- Witness for C6 at concrete inputs: a known category (startup_unicorn)
and an unknown one. -/
theorem c6_adjust_for_base_rate_witness :
    adjust_for_base_rate 5 "startup_unicorn" = (6 / 100000 : ℚ) * 0.7 + 5 * 0.3 ∧
    adjust_for_base_rate 7 "unknown_scenario" = 7 / 3 :=
  ⟨c6_adjust_for_base_rate_spec.1 5 "startup_unicorn" (6 / 100000) rfl,
   c6_adjust_for_base_rate_spec.2.1 7 "unknown_scenario" rfl⟩

/-- C7: for prior and likelihood in [0, 1], the Bayesian update with equal
likelihoods is a no-op, including the degenerate zero-evidence case, where
the prior is returned unchanged rather than an error raised. -/
theorem c7_bayesian_update_noop (p L : ℚ)
    (hp0 : 0 ≤ p) (hp1 : p ≤ 1) (hL0 : 0 ≤ L) (hL1 : L ≤ 1) :
    bayesian_update p L L = p := by
  have he : L * p + L * (1 - p) = L := by ring
  simp only [bayesian_update, he]
  split_ifs with h
  · rfl
  · rw [mul_comm, mul_div_assoc, div_self h, mul_one]

/-- Witness for C7 at prior 1/2, likelihood 1/3 (and, via the zero
likelihood, the degenerate evidence-zero branch). -/
theorem c7_bayesian_update_noop_witness :
    bayesian_update (1/2) (1/3) (1/3) = 1/2 ∧ bayesian_update (1/2) 0 0 = 1/2 :=
  ⟨c7_bayesian_update_noop (1/2) (1/3) (by norm_num) (by norm_num)
     (by norm_num) (by norm_num),
   c7_bayesian_update_noop (1/2) 0 (by norm_num) (by norm_num)
     (by norm_num) (by norm_num)⟩

/-- C10: certainty is a fixed point of the Bayesian update — for
likelihoods in [0, 1], a prior of 0 stays 0 and a prior of 1 stays 1. -/
theorem c10_bayesian_update_certainty (lt lf : ℚ)
    (ht0 : 0 ≤ lt) (ht1 : lt ≤ 1) (hf0 : 0 ≤ lf) (hf1 : lf ≤ 1) :
    bayesian_update 0 lt lf = 0 ∧ bayesian_update 1 lt lf = 1 := by
  constructor
  · have he : lt * 0 + lf * (1 - 0) = lf := by ring
    simp only [bayesian_update, he]
    split_ifs with h
    · rfl
    · rw [mul_zero, zero_div]
  · have he : lt * 1 + lf * (1 - 1) = lt := by ring
    simp only [bayesian_update, he]
    split_ifs with h
    · rfl
    · rw [mul_one, div_self h]

/-- Witness for C10 at likelihoods 1/2 and 1/4. -/
theorem c10_bayesian_update_certainty_witness :
    bayesian_update 0 (1/2) (1/4) = 0 ∧ bayesian_update 1 (1/2) (1/4) = 1 :=
  c10_bayesian_update_certainty (1/2) (1/4) (by norm_num) (by norm_num)
    (by norm_num) (by norm_num)

/-- One sweep of the relaxation loop on the cyclic two-task state always
reports a change: whichever of A, B is behind gets pushed forward. -/
theorem onePass_cyc (a b : ℤ) :
    ∃ a₂ b₂, onePass [cycA a, cycB b] = .ok ([cycA a₂, cycB b₂], true) := by
  have hr : List.range 2 = [0, 1] := rfl
  by_cases h : a < b + 1
  · refine ⟨b + 1, b + 1 + 1, ?_⟩
    have h2 : b < b + 1 + 1 := by omega
    simp [onePass, passGo, hr, cycA, cycB, lookupTask, pyMax, h, h2]
  · refine ⟨a, a + 1, ?_⟩
    have h2 : b < a + 1 := by omega
    simp [onePass, passGo, hr, cycA, cycB, lookupTask, pyMax, h, h2]

/-- The relaxation loop on the cyclic two-task state exhausts any amount
of fuel: no fixed point is ever reached. -/
theorem forwardLoop_cyc : ∀ (fuel : ℕ) (a b : ℤ),
    forwardLoop fuel [cycA a, cycB b] = none := by
  intro fuel
  induction fuel with
  | zero => intro a b; rfl
  | succ n ih =>
    intro a b
    obtain ⟨a₂, b₂, h⟩ := onePass_cyc a b
    simp only [forwardLoop, h]
    exact ih a₂ b₂

/-- C2: the claim says a cyclic task collection always terminates with a
CycleDetected error.  The code has no cycle detection at all: on the cycle
A ↔ B (durations 1) the repeat-until-no-change forward pass changes the
state on every sweep, so the loop never reaches a fixed point — for every
amount of fuel the embedded loop is still running (the Python call loops
forever) and no error value is ever produced. -/
theorem c2_cycle_loops_forever (fuel : ℕ) :
    calculate_critical_path fuel cyclicTasks = none := by
  have hs : (cyclicTasks.map fun t =>
      ({ name := t.name, duration := t.duration, dependencies := t.dependencies,
         es := 0, ef := t.duration } : CPTask)) = [cycA 0, cycB 0] := by
    norm_num [cyclicTasks, cycA, cycB]
  have h : forwardLoop fuel [cycA 0, cycB 0] = none := forwardLoop_cyc fuel 0 0
  simp only [calculate_critical_path, hs, h]

/-- Witness for C2 at a concrete fuel value. -/
theorem c2_cycle_loops_forever_witness :
    calculate_critical_path 5 cyclicTasks = none :=
  c2_cycle_loops_forever 5

/-- Python max returns an element of the list. -/
theorem pyMax_mem {α : Type} [LinearOrder α] :
    ∀ (l : List α) (x : α), pyMax l = some x → x ∈ l := by
  intro l
  induction l with
  | nil => intro x h; cases h
  | cons a as ih =>
    intro x h
    cases hm : pyMax as with
    | none =>
      simp only [pyMax, hm, Option.some.injEq] at h
      subst h
      exact List.mem_cons_self a as
    | some m =>
      simp only [pyMax, hm, Option.some.injEq] at h
      rcases max_choice a m with hc | hc <;> rw [hc] at h <;> subst h
      · exact List.mem_cons_self a as
      · exact List.mem_cons_of_mem a (ih m hm)

/-- A sweep of the forward pass preserves early_finish = early_start +
duration: the initial state satisfies it and every update writes
early_finish as the new early_start plus the duration. -/
theorem passGo_inv : ∀ (idxs : List ℕ) (s : List CPTask) (ch : Bool)
    (r : List CPTask × Bool),
    passGo s ch idxs = .ok r →
    (∀ t ∈ s, t.ef = t.es + t.duration) →
    ∀ t ∈ r.1, t.ef = t.es + t.duration := by
  intro idxs
  induction idxs with
  | nil =>
    intro s ch r h hinv
    simp only [passGo] at h
    injection h with h'
    subst h'
    exact hinv
  | cons i rest ih =>
    intro s ch r h hinv
    simp only [passGo] at h
    split at h
    · exact ih _ _ _ h hinv
    · split at h
      · exact ih _ _ _ h hinv
      · split at h
        · cases h
        · rename_i t heq hdep m hmx
          split at h
          · refine ih _ _ _ h ?_
            intro u hu
            rcases List.mem_or_eq_of_mem_set hu with hu' | rfl
            · exact hinv u hu'
            · rfl
          · exact ih _ _ _ h hinv

/-- A sweep of the forward pass preserves the length of the task list. -/
theorem passGo_length : ∀ (idxs : List ℕ) (s : List CPTask) (ch : Bool)
    (r : List CPTask × Bool),
    passGo s ch idxs = .ok r → r.1.length = s.length := by
  intro idxs
  induction idxs with
  | nil =>
    intro s ch r h
    simp only [passGo] at h
    injection h with h'
    subst h'
    rfl
  | cons i rest ih =>
    intro s ch r h
    simp only [passGo] at h
    split at h
    · exact ih _ _ _ h
    · split at h
      · exact ih _ _ _ h
      · split at h
        · cases h
        · split at h
          · rw [ih _ _ _ h, List.length_set]
          · exact ih _ _ _ h

/-- The relaxation loop preserves early_finish = early_start + duration. -/
theorem forwardLoop_inv : ∀ (fuel : ℕ) (s s₁ : List CPTask),
    forwardLoop fuel s = some (.ok s₁) →
    (∀ t ∈ s, t.ef = t.es + t.duration) →
    ∀ t ∈ s₁, t.ef = t.es + t.duration := by
  intro fuel
  induction fuel with
  | zero => intro s s₁ h; cases h
  | succ n ih =>
    intro s s₁ h hinv
    simp only [forwardLoop] at h
    split at h
    · cases h
    · rename_i s₂ heq
      simp only [onePass] at heq
      exact ih _ _ h (passGo_inv _ _ _ _ heq hinv)
    · rename_i s₂ heq
      simp only [Option.some.injEq, Except.ok.injEq] at h
      subst h
      simp only [onePass] at heq
      exact passGo_inv _ _ _ _ heq hinv

/-- The relaxation loop preserves the length of the task list. -/
theorem forwardLoop_length : ∀ (fuel : ℕ) (s s₁ : List CPTask),
    forwardLoop fuel s = some (.ok s₁) → s₁.length = s.length := by
  intro fuel
  induction fuel with
  | zero => intro s s₁ h; cases h
  | succ n ih =>
    intro s s₁ h
    simp only [forwardLoop] at h
    split at h
    · cases h
    · rename_i s₂ heq
      simp only [onePass] at heq
      rw [ih _ _ h]
      exact passGo_length _ _ _ _ heq
    · rename_i s₂ heq
      simp only [Option.some.injEq, Except.ok.injEq] at h
      subst h
      simp only [onePass] at heq
      exact passGo_length _ _ _ _ heq

/-- C9: whenever calculate_critical_path returns a result on a non-empty
task collection, the critical path is non-empty, and every (final) task
whose early_finish equals project_duration has slack exactly 0 and its
name listed in the critical path.  This holds because the code computes
slack = (project_duration - duration) - early_start, which under the
forward-pass invariant early_finish = early_start + duration equals
project_duration - early_finish, and project_duration is the max of the
early_finish values, attained by some task of the non-empty collection. -/
theorem c9_max_finish_tasks_are_critical (fuel : ℕ) (tasks : List TaskIn)
    (res : CPResult) (finals : List CPFinal)
    (hne : tasks ≠ [])
    (h : calculate_critical_path fuel tasks = some (.ok (res, finals))) :
    res.critical_path ≠ [] ∧
      ∀ t ∈ finals, t.ef = res.project_duration →
        t.slack = 0 ∧ t.name ∈ res.critical_path := by
  simp only [calculate_critical_path] at h
  split at h
  · cases h
  · simp at h
  · rename_i s heq
    split at h
    · simp at h
    · rename_i pd hpd
      simp only [Option.some.injEq, Except.ok.injEq, Prod.mk.injEq] at h
      obtain ⟨hres, hfin⟩ := h
      have hcp : res.critical_path =
          ((s.map (finalize pd)).filter (fun t => t.slack == 0)).map (·.name) := by
        rw [← hres]
      have hpd2 : res.project_duration = pd := by
        rw [← hres]
      subst hfin
      have hinv : ∀ t ∈ s, t.ef = t.es + t.duration := by
        apply forwardLoop_inv fuel _ s heq
        intro t ht
        obtain ⟨u, hu, rfl⟩ := List.mem_map.mp ht
        simp
      obtain ⟨t0, ht0, hef0⟩ := List.mem_map.mp (pyMax_mem _ _ hpd)
      constructor
      · rw [hcp]
        have h1 := hinv t0 ht0
        have h2 : (finalize pd t0).slack = 0 := by
          simp only [finalize]
          omega
        exact List.ne_nil_of_mem
          (List.mem_map_of_mem _
            (List.mem_filter.mpr ⟨List.mem_map_of_mem _ ht0, by simp [h2]⟩))
      · intro t ht hef
        obtain ⟨u, hu, rfl⟩ := List.mem_map.mp ht
        have h1 := hinv u hu
        rw [hpd2] at hef
        have h2 : u.ef = pd := hef
        have h3 : (finalize pd u).slack = 0 := by
          simp only [finalize]
          omega
        refine ⟨h3, ?_⟩
        rw [hcp]
        exact List.mem_map_of_mem _
          (List.mem_filter.mpr ⟨List.mem_map_of_mem _ hu, by simp [h3]⟩)

/-- Witness for C9 on the single-task collection: the scheduled result of
soloTasks has a non-empty critical path containing its only task. -/
theorem c9_max_finish_tasks_are_critical_witness :
    c9pair.1.critical_path ≠ [] ∧
      ∀ t ∈ c9pair.2, t.ef = c9pair.1.project_duration →
        t.slack = 0 ∧ t.name ∈ c9pair.1.critical_path :=
  c9_max_finish_tasks_are_critical 2 soloTasks c9pair.1 c9pair.2
    (by decide) (by rfl)

/-- The insertion sort used for percentiles is sorted. -/
theorem pySort_sorted (l : List ℚ) : (pySort l).Sorted (· ≤ ·) :=
  List.sorted_insertionSort (· ≤ ·) l

/-- Sorting preserves the length. -/
theorem pySort_length (l : List ℚ) : (pySort l).length = l.length :=
  List.length_insertionSort (· ≤ ·) l

/-- Clamped indexing into a sorted list is monotone in the index. -/
theorem cIdx_mono (s : List ℚ) (hs : s.Sorted (· ≤ ·)) (hne : s ≠ [])
    {i j : ℕ} (hij : i ≤ j) : cIdx s i ≤ cIdx s j := by
  have hlen : 0 < s.length := List.length_pos.mpr hne
  unfold cIdx
  have hab : min i (s.length - 1) ≤ min j (s.length - 1) := by omega
  have ha : min i (s.length - 1) < s.length := by omega
  have hb : min j (s.length - 1) < s.length := by omega
  rcases Nat.eq_or_lt_of_le hab with heq | hlt
  · rw [heq]
  · rw [List.getD_eq_getElem s 0 ha, List.getD_eq_getElem s 0 hb]
    exact List.pairwise_iff_getElem.mp hs _ _ ha hb hlt

/-- On positions inside the sample range, the interpolation can be read
through the clamped index: value at the floor cell plus the fractional
part times the cell width. -/
theorem interp_eq (s : List ℚ) (hne : s ≠ []) {pos : ℚ}
    (h0 : 0 ≤ pos) (hub : pos ≤ (s.length : ℚ) - 1) :
    interp s pos =
      cIdx s (⌊pos⌋.toNat) +
        (pos - (⌊pos⌋ : ℚ)) * (cIdx s (⌊pos⌋.toNat + 1) - cIdx s (⌊pos⌋.toNat)) := by
  have hlen : 0 < s.length := List.length_pos.mpr hne
  have hfl0 : 0 ≤ ⌊pos⌋ := Int.floor_nonneg.mpr h0
  have hcast : (((s.length : ℤ) - 1 : ℤ) : ℚ) = (s.length : ℚ) - 1 := by
    push_cast
    ring
  have hfl_ub : ⌊pos⌋ ≤ (s.length : ℤ) - 1 := by
    have h1 : ⌊pos⌋ ≤ ⌊((s.length : ℚ) - 1)⌋ := Int.floor_le_floor hub
    rwa [← hcast, Int.floor_intCast] at h1
  have hi : ⌊pos⌋.toNat ≤ s.length - 1 := by omega
  simp only [interp, cIdx]
  rw [min_eq_left hi]
  by_cases hcase : ⌊pos⌋.toNat + 1 ≤ s.length - 1
  · rw [min_eq_left hcase]
    have h1 : ⌊pos⌋.toNat + 1 < s.length := by omega
    rw [List.getD_eq_getElem s (s.getD ⌊pos⌋.toNat 0) h1, List.getD_eq_getElem s 0 h1]
  · have hfl_eq : (⌊pos⌋ : ℚ) = pos := by
      have h1 : (⌊pos⌋ : ℚ) ≤ pos := Int.floor_le pos
      have h2 : ⌊pos⌋ = (s.length : ℤ) - 1 := by omega
      have h3 : (⌊pos⌋ : ℚ) = (s.length : ℚ) - 1 := by
        rw [h2, ← hcast]
      linarith
    have hfrac : pos - (⌊pos⌋ : ℚ) = 0 := by
      rw [hfl_eq]
      ring
    rw [hfrac]
    ring

/-- The interpolated value lies between the values at the floor cell and
the next cell. -/
theorem interp_bounds (s : List ℚ) (hs : s.Sorted (· ≤ ·)) (hne : s ≠ [])
    {pos : ℚ} (h0 : 0 ≤ pos) (hub : pos ≤ (s.length : ℚ) - 1) :
    cIdx s (⌊pos⌋.toNat) ≤ interp s pos ∧
      interp s pos ≤ cIdx s (⌊pos⌋.toNat + 1) := by
  rw [interp_eq s hne h0 hub]
  have hd : cIdx s (⌊pos⌋.toNat) ≤ cIdx s (⌊pos⌋.toNat + 1) :=
    cIdx_mono s hs hne (Nat.le_succ _)
  have hf0 : 0 ≤ pos - (⌊pos⌋ : ℚ) := by linarith [Int.floor_le pos]
  have hf1 : pos - (⌊pos⌋ : ℚ) ≤ 1 := by linarith [Int.lt_floor_add_one pos]
  constructor <;> nlinarith

/-- Linear interpolation into a sorted list is monotone in the position. -/
theorem interp_mono (s : List ℚ) (hs : s.Sorted (· ≤ ·)) (hne : s ≠ [])
    {p q : ℚ} (hp : 0 ≤ p) (hpq : p ≤ q) (hq : q ≤ (s.length : ℚ) - 1) :
    interp s p ≤ interp s q := by
  have hq0 : 0 ≤ q := le_trans hp hpq
  have hpub : p ≤ (s.length : ℚ) - 1 := le_trans hpq hq
  have hij : ⌊p⌋.toNat ≤ ⌊q⌋.toNat := Int.toNat_le_toNat (Int.floor_le_floor hpq)
  rcases Nat.eq_or_lt_of_le hij with heq | hlt
  · have hfp : 0 ≤ ⌊p⌋ := Int.floor_nonneg.mpr hp
    have hfq : 0 ≤ ⌊q⌋ := Int.floor_nonneg.mpr hq0
    have hfl : ⌊p⌋ = ⌊q⌋ := by omega
    rw [interp_eq s hne hp hpub, interp_eq s hne hq0 hq, ← heq, ← hfl]
    have hd : cIdx s (⌊p⌋.toNat) ≤ cIdx s (⌊p⌋.toNat + 1) :=
      cIdx_mono s hs hne (Nat.le_succ _)
    nlinarith [hpq]
  · have h1 := (interp_bounds s hs hne hp hpub).2
    have h3 := (interp_bounds s hs hne hq0 hq).1
    have h2 : cIdx s (⌊p⌋.toNat + 1) ≤ cIdx s (⌊q⌋.toNat) := cIdx_mono s hs hne hlt
    linarith

/-- The NumPy percentile is monotone in the rank, for any sample list. -/
theorem percentileD_mono (samples : List ℚ) (hne : samples ≠ []) {q1 q2 : ℚ}
    (h0 : 0 ≤ q1) (h12 : q1 ≤ q2) (h2 : q2 ≤ 100) :
    percentileD samples q1 ≤ percentileD samples q2 := by
  have hlen : (pySort samples).length = samples.length := pySort_length samples
  have hlp : 0 < samples.length := List.length_pos.mpr hne
  have hsne : pySort samples ≠ [] := by
    intro h0'
    rw [h0'] at hlen
    simp at hlen
    omega
  have hn1 : (1 : ℚ) ≤ (samples.length : ℚ) := by exact_mod_cast hlp
  have hnn : (0 : ℚ) ≤ (samples.length : ℚ) - 1 := by linarith
  unfold percentileD
  apply interp_mono _ (pySort_sorted samples) hsne
  · exact div_nonneg (mul_nonneg h0 hnn) (by norm_num)
  · have hm := mul_le_mul_of_nonneg_right h12 hnn
    linarith
  · rw [hlen]
    have hm := mul_le_mul_of_nonneg_right h2 hnn
    linarith

/-- The simulator always produces exactly `n_simulations` samples. -/
theorem mcSamples_length (r : RNG) (b v : ℚ) (n : ℕ) (bs : Bool) :
    (mcSamples r b v n bs).1.length = n := by
  unfold mcSamples normalDraws uniformDraws
  cases bs <;> simp

/-- C8: for every simulator call that returns a result, the percentile
fields of the result are non-decreasing in their rank:
p5 ≤ p10 ≤ p25 ≤ p50 ≤ p75 ≤ p90 ≤ p95.  Each field is the NumPy linear
percentile of the same sample list, and that interpolation is monotone in
the rank on any (sorted) sample list. -/
theorem c8_percentiles_nondecreasing (r : RNG) (base vol : ℚ) (n : ℕ) (bs : Bool)
    (res : SimResult) (r₁ : RNG)
    (h : monte_carlo_simulation r base vol n bs = (some res, r₁)) :
    res.p5 ≤ res.p10 ∧ res.p10 ≤ res.p25 ∧ res.p25 ≤ res.p50 ∧
      res.p50 ≤ res.p75 ∧ res.p75 ≤ res.p90 ∧ res.p90 ≤ res.p95 := by
  simp only [monte_carlo_simulation] at h
  split_ifs at h with h1 h2
  · simp at h
  · simp at h
  · simp only [Prod.mk.injEq, Option.some.injEq] at h
    obtain ⟨hres, -⟩ := h
    subst hres
    have hlen := mcSamples_length r base vol n bs
    have hne : (mcSamples r base vol n bs).1 ≠ [] := by
      intro h0
      rw [h0] at hlen
      simp at hlen
      exact h2 hlen.symm
    refine ⟨?_, ?_, ?_, ?_, ?_, ?_⟩ <;>
      exact percentileD_mono _ hne (by norm_num) (by norm_num) (by norm_num)

/-- Witness for C8 on a concrete one-sample call. -/
theorem c8_percentiles_nondecreasing_witness :
    c8res.p5 ≤ c8res.p10 ∧ c8res.p10 ≤ c8res.p25 ∧ c8res.p25 ≤ c8res.p50 ∧
      c8res.p50 ≤ c8res.p75 ∧ c8res.p75 ≤ c8res.p90 ∧ c8res.p90 ≤ c8res.p95 :=
  c8_percentiles_nondecreasing rngW 5 0 1 false c8res
    (mcSamples rngW 5 0 1 false).2
    (by norm_num [monte_carlo_simulation, c8res, c8sims])
